import Mathlib

/-!
Verification of the gallery admin relay of the etzrodt website repository.

The sources embedded here are `src/gallery-admin-worker/worker.js` (router,
authentication, rate limiting, JWT verification, GitHub content-store
handlers, minimal YAML reader) and the gallery encoder `galleryToYaml` of
`src/assets/js/main.js`.  JavaScript strings are modelled as `List Char`
processed by direct translations of the string primitives the code uses
(`split`, `trim`, `startsWith`, `slice`, the one regular expression of
`parseYamlKV`).  External runtime primitives (WebCrypto HMAC, JSON plus
base64url serialisation, the Cloudflare KV binding, the GitHub Contents API)
are modelled as explicit parameters or small state machines, each documented
at its definition.
-/

namespace EtzrodtWorker

/-- Characters accepted by the JavaScript whitespace class (string `trim` and
the regex class backslash-s), restricted to the ASCII characters that can
occur here: space, tab, newline, carriage return, vertical tab, form feed. -/
def isJsSpace (c : Char) : Bool :=
  c = ' ' || c = '\t' || c = '\n' || c = '\r' || c = Char.ofNat 11 || c = Char.ofNat 12

/-- Word characters of the JavaScript regex class backslash-w:
ASCII letters, digits and underscore. -/
def isWordChar (c : Char) : Bool :=
  c.isAlphanum || c = '_'

/-- JavaScript `str.split(sep)` for a one-character separator: splits at every
occurrence, keeping empty pieces (so the split of the empty string is one
empty piece). -/
def splitOnChar (sep : Char) : List Char → List (List Char)
  | [] => [[]]
  | c :: t =>
    if c = sep then [] :: splitOnChar sep t
    else
      match splitOnChar sep t with
      | [] => [[c]]
      | h :: r => (c :: h) :: r

/-- Remove trailing JavaScript whitespace. -/
def dropTrailingSpaces (l : List Char) : List Char :=
  (l.reverse.dropWhile isJsSpace).reverse

/-- JavaScript `str.trim()`: strip leading and trailing whitespace. -/
def jsTrimChars (l : List Char) : List Char :=
  dropTrailingSpaces (l.dropWhile isJsSpace)

/-- Truthiness of a JavaScript value holding either `undefined` or a string:
truthy exactly when it is a nonempty string. -/
def truthyS : Option String → Bool
  | none => false
  | some s => s ≠ ""

/-! ## Gallery record codec

`galleryToYaml` is the encoder of `src/assets/js/main.js` (lines 658-666);
`parseSimpleYaml` and `parseYamlKV` are the decoder of
`src/gallery-admin-worker/worker.js` (lines 308-345). -/

/-- A gallery entry of the admin UI: `{ image, caption?, category? }` with
optional caption and category. -/
structure GalleryEntry where
  image : String
  caption : Option String
  category : Option String
deriving DecidableEq, Repr

/-- A decoded JavaScript object: its fields in insertion order. -/
abbrev Obj := List (String × String)

/-- JavaScript property assignment `obj[k] = v`: overwrite in place if the key
exists, otherwise append. -/
def insertKV : Obj → String → String → Obj
  | [], k, v => [(k, v)]
  | (k0, v0) :: rest, k, v =>
    if k0 = k then (k, v) :: rest else (k0, v0) :: insertKV rest k v

/-- The regex replace of `galleryToYaml`: every double quote becomes
backslash quote. -/
def escQ : List Char → List Char
  | [] => []
  | c :: t => if c = '"' then '\\' :: '"' :: escQ t else c :: escQ t

/-- One entry of `galleryToYaml`: the image line, then, when the field is a
nonempty string, an indented caption line and an indented category line, with
double quotes in caption and category backslash-escaped (the image value is
not escaped in the source). -/
def entryToYamlChars (e : GalleryEntry) : List Char :=
  let y1 := "- image: \"".toList ++ e.image.toList ++ ['"']
  let y2 :=
    match e.caption with
    | some c => if c ≠ "" then y1 ++ '\n' :: ("  caption: \"".toList ++ escQ c.toList ++ ['"']) else y1
    | none => y1
  match e.category with
  | some c => if c ≠ "" then y2 ++ '\n' :: ("  category: \"".toList ++ escQ c.toList ++ ['"']) else y2
  | none => y2

/-- JavaScript `array.join(sep)` for the two-newline separator used between
entries. -/
def joinNN : List (List Char) → List Char
  | [] => []
  | [x] => x
  | x :: y :: r => x ++ '\n' :: '\n' :: joinNN (y :: r)

/-- Character-level `galleryToYaml`: an empty list encodes as one comment
line, otherwise the entry blocks joined by a blank line with a final
newline. -/
def galleryToYamlChars (entries : List GalleryEntry) : List Char :=
  match entries with
  | [] => "# Gallery is empty\n".toList
  | _ => joinNN (entries.map entryToYamlChars) ++ ['\n']

/-- The encoder `galleryToYaml` of `main.js`. -/
def galleryToYaml (entries : List GalleryEntry) : String :=
  ⟨galleryToYamlChars entries⟩

/-- Strip one layer of enclosing double or single quotes
(`value.slice(1, -1)` guarded by matching `startsWith` and `endsWith`). -/
def stripQuotesChars (v : List Char) : List Char :=
  if (v.head? = some '"' ∧ v.getLast? = some '"') ∨
     (v.head? = some (Char.ofNat 39) ∧ v.getLast? = some (Char.ofNat 39)) then
    (v.drop 1).dropLast
  else v

/-- The helper `parseYamlKV` of `worker.js`: match the key-value regex (one
or more word characters, optional spaces, a colon, the rest), trim the value
and strip one layer of enclosing quotes.  Returns `none` when the regex does
not match. -/
def parseYamlKVChars (s : List Char) : Option (String × String) :=
  let key := s.takeWhile isWordChar
  let rest := s.dropWhile isWordChar
  if key.isEmpty then none
  else
    match rest.dropWhile isJsSpace with
    | ':' :: tail => some (⟨key⟩, ⟨stripQuotesChars (jsTrimChars tail)⟩)
    | _ => none

/-- Push the current object, if any, at the end of the entry list
(`if (current) entries.push(current)`). -/
def pushCur (entries : List Obj) : Option Obj → List Obj
  | some c => entries ++ [c]
  | none => entries

/-- The body of the line loop of `parseSimpleYaml`, acting on the loop state
`(entries, current)`: skip blank and comment lines, start a new entry at a
dash-space line (pushing the finished one), and treat any other line
containing a colon as a continuation key of the current entry. -/
def parseLine (st : List Obj × Option Obj) (line : List Char) : List Obj × Option Obj :=
  let t := jsTrimChars line
  if t.isEmpty then st
  else if t.head? = some '#' then st
  else if t.take 2 = ['-', ' '] then
    (pushCur st.1 st.2,
     some (match parseYamlKVChars (t.drop 2) with
           | some kv => insertKV [] kv.1 kv.2
           | none => []))
  else
    match st.2 with
    | some c =>
      if ':' ∈ t then
        match parseYamlKVChars t with
        | some kv => (st.1, some (insertKV c kv.1 kv.2))
        | none => st
      else st
    | none => st

/-- The decoder `parseSimpleYaml` of `worker.js`: split into lines, fold the
line loop from the empty state, and push a trailing current entry. -/
def parseSimpleYaml (yaml : String) : List Obj :=
  let st := (splitOnChar '\n' yaml.toList).foldl parseLine ([], none)
  pushCur st.1 st.2

/-- The JavaScript-object view of a gallery entry: the fields `galleryToYaml`
would emit for it, in emission order, including a present-but-empty caption
or category (which the encoder drops). -/
def entryToObj (e : GalleryEntry) : Obj :=
  ("image", e.image) ::
    ((match e.caption with | some c => [("caption", c)] | none => []) ++
     (match e.category with | some c => [("category", c)] | none => []))

/-- Restriction on an optional caption or category under which the codec can
round-trip: when present the value is nonempty, newline-free and free of
double quotes. -/
def goodOpt : Option String → Prop
  | none => True
  | some c => c ≠ "" ∧ '\n' ∉ c.toList ∧ '"' ∉ c.toList

/-- Restriction on a gallery entry under which the codec round-trips: the
image name is newline-free, caption and category are `goodOpt`. -/
def goodEntry (e : GalleryEntry) : Prop :=
  '\n' ∉ e.image.toList ∧ goodOpt e.caption ∧ goodOpt e.category

instance : DecidablePred goodOpt := by
  intro o
  cases o <;> simp [goodOpt] <;> infer_instance

instance : DecidablePred goodEntry := by
  intro e
  unfold goodEntry
  infer_instance

/-! ## JWT issue and verification

`signJWT` and `verifyJWT` of `worker.js` (lines 128-166).  The WebCrypto
HMAC-SHA256 is modelled as a parameter `mac : secret -> message -> encoded
tag`, producing the base64url-encoded tag; `crypto.subtle.verify` compares
the decoded third token part against the recomputed tag, which (base64url
decoding being injective on canonical encodings) is comparison of the
encoded forms.  `base64url(JSON.stringify payload)` and its inverse
`JSON.parse(atob part)` are the parameters `encP` and `decP`; `decP`
returning `none` models a thrown decoding error. -/

/-- The number of seconds an issued token lives (`JWT_EXPIRY` in the
source). -/
def JWT_EXPIRY : Nat := 2 * 60 * 60

/-- The JWT payload as built by `handleAuth`: subject, issue time and an
optional expiry (`exp` is absent in some foreign tokens; `verifyJWT` must
handle that). -/
structure JWTPayloadJS where
  sub : String
  iat : Nat
  exp : Option Nat
deriving DecidableEq, Repr

/-- The constant first token part: base64url of the serialised header
object with alg HS256 and typ JWT. -/
def headerB64 : List Char := "eyJhbGciOiJIUzI1NiIsInR5cCI6IkpXVCJ9".toList

/-- Function `signJWT` of `worker.js`: sign the dot-joined encoded header and payload
and append the encoded tag. -/
def signJWT (mac : List Char → List Char → List Char) (encP : JWTPayloadJS → List Char)
    (secret : List Char) (payload : JWTPayloadJS) : List Char :=
  let signingInput := headerB64 ++ '.' :: encP payload
  signingInput ++ '.' :: mac secret signingInput

/-- The token `handleAuth` mints on a successful login (line 98 of the
source): subject admin, issued now, expiring `JWT_EXPIRY` seconds later. -/
def issueJWT (mac : List Char → List Char → List Char) (encP : JWTPayloadJS → List Char)
    (secret : List Char) (now : Nat) : List Char :=
  signJWT mac encP secret ⟨"admin", now, some (now + JWT_EXPIRY)⟩

/-- The `Bearer` prefix check plus `slice(7)` of `verifyJWT`. -/
def stripBearer : List Char → Option (List Char)
  | 'B' :: 'e' :: 'a' :: 'r' :: 'e' :: 'r' :: ' ' :: rest => some rest
  | _ => none

/-- The expiry test of `verifyJWT`: `payload.exp && payload.exp < now()`.
An absent or zero `exp` is falsy, so such payloads are never rejected. -/
def expRejects (exp : Option Nat) (now : Nat) : Bool :=
  match exp with
  | some e => decide (¬ e = 0) && decide (e < now)
  | none => false

/-- Function `verifyJWT` of `worker.js` on the Authorization header value: require the
Bearer prefix, exactly three dot-separated parts and a matching tag, then
decode the payload and reject it when expired.  `Except.error` models a
decoding exception escaping to the router's catch block; `Except.ok none`
is the function returning null. -/
def verifyJWT (mac : List Char → List Char → List Char)
    (decP : List Char → Option JWTPayloadJS) (secret : List Char)
    (authHeader : Option (List Char)) (now : Nat) : Except Unit (Option JWTPayloadJS) :=
  match authHeader with
  | none => .ok none
  | some auth =>
    match stripBearer auth with
    | none => .ok none
    | some token =>
      match splitOnChar '.' token with
      | [p0, p1, p2] =>
        let signingInput := p0 ++ '.' :: p1
        if mac secret signingInput = p2 then
          match decP p1 with
          | none => .error ()
          | some payload => .ok (if expRejects payload.exp now then none else some payload)
        else .ok none
      | _ => .ok none

/-! ## Rate limiter and authentication route

`handleAuth` of `worker.js` (lines 72-100).  The Cloudflare KV binding
`env.RATE_LIMIT` is modelled as an optional store; a stored counter carries
the absolute expiration time set by `put` with `expirationTtl`, and `get`
returns nothing once that time is reached.  An unavailable store (a rejected
KV promise) is modelled by the `available` flag; the rejection escapes to
the router's catch block. -/

/-- Maximum allowed attempts per window (`RATE_LIMIT_MAX`). -/
def RLIMIT_MAX : Nat := 5

/-- Window length in seconds (`RATE_LIMIT_WINDOW`). -/
def RLIMIT_WINDOW : Nat := 3600

/-- One stored rate-limit counter: the attempt count and the absolute
expiration time assigned by the last `put`. -/
structure KVEntry where
  count : Nat
  expiry : Nat
deriving DecidableEq, Repr

/-- The rate-limit KV binding for one client identity: whether the store
responds at all, and the current entry for the identity's key. -/
structure RLStore where
  available : Bool
  entry : Option KVEntry
deriving DecidableEq, Repr

/-- KV `get` with expiry: the stored count while the entry has not expired,
nothing otherwise. -/
def kvGet (entry : Option KVEntry) (now : Nat) : Option Nat :=
  match entry with
  | some e => if now < e.expiry then some e.count else none
  | none => none

/-- Result of one request handler: an HTTP status, or a thrown error the
router's catch block converts to a 500 response. -/
inductive HRes
  | resp (status : Nat)
  | thrown
deriving DecidableEq, Repr

/-- Observable side effects of a request, used to state what a rejected
request never does. -/
inductive Effect
  | rlAccess
  | kdf
  | tokenCheck
  | ghCall
deriving DecidableEq, Repr

/-- The body of `handleAuth` after the rate-limit gate: a missing or empty
password is a 400, otherwise PBKDF2 verification (modelled by `kdfOk`,
the outcome of `verifyPassword` against the configured hash and salt)
decides between the 200 with a fresh token and the 401. -/
def handleAuthBody (kdfOk : String → Bool) (password : Option String) : HRes × List Effect :=
  if truthyS password = false then (.resp 400, [])
  else if kdfOk (password.getD "") then (.resp 200, [.kdf])
  else (.resp 401, [.kdf])

/-- Function `handleAuth`: when a rate-limit binding is configured, read the counter
(a rejected read is thrown), deny with 429 at `RLIMIT_MAX` or above without
writing, otherwise write count plus one with a fresh TTL and continue to the
password check. -/
def handleAuth (kdfOk : String → Bool) (rl : Option RLStore) (now : Nat)
    (password : Option String) : HRes × Option RLStore × List Effect :=
  match rl with
  | some store =>
    if store.available then
      let count := (kvGet store.entry now).getD 0
      if RLIMIT_MAX ≤ count then (.resp 429, rl, [.rlAccess])
      else
        let rl2 : Option RLStore := some { store with entry := some ⟨count + 1, now + RLIMIT_WINDOW⟩ }
        let body := handleAuthBody kdfOk password
        (body.1, rl2, .rlAccess :: body.2)
    else (.thrown, rl, [.rlAccess])
  | none =>
    let body := handleAuthBody kdfOk password
    (body.1, none, body.2)

/-! ## GitHub content-store handlers

`listImages`, `uploadImage`, `deleteImage`, `getGallery` and `updateGallery`
of `worker.js` (lines 172-302).  The GitHub Contents API is modelled as an
association list from path to file (`sha` plus decoded text content; the
base64 transport encoding, a bijection, is elided) with the optimistic
concurrency rules of the spec: an update must carry the file's current sha
and a create must carry none, otherwise the API answers with an error
status.  The sha GitHub assigns to newly written content is the parameter
`newSha`. -/

/-- One stored file of the remote content store. -/
structure GHFile where
  sha : String
  content : String
deriving DecidableEq, Repr

/-- The remote content store: files by path. -/
abbrev GHStore := List (String × GHFile)

/-- Look a path up in the store. -/
def ghLookup (st : GHStore) (p : String) : Option GHFile :=
  match st with
  | [] => none
  | (q, f) :: rest => if q = p then some f else ghLookup rest p

/-- Replace or insert a file at a path. -/
def ghSet (st : GHStore) (p : String) (f : GHFile) : GHStore :=
  match st with
  | [] => [(p, f)]
  | (q, g) :: rest => if q = p then (p, f) :: rest else (q, g) :: ghSet rest p f

/-- Remove a path from the store. -/
def ghRemove (st : GHStore) (p : String) : GHStore :=
  match st with
  | [] => []
  | (q, g) :: rest => if q = p then rest else (q, g) :: ghRemove rest p

/-- Model of the Contents API `PUT`: with the file present the supplied sha
must equal the current one (an update without a sha or with a stale sha is
rejected); with the file absent no sha may be supplied.  On success the new
store and the sha of the written content. -/
def ghApiPut (st : GHStore) (p : String) (provided : Option String)
    (content newSha : String) : Option GHStore :=
  match ghLookup st p with
  | some f =>
    match provided with
    | some s => if s = f.sha then some (ghSet st p ⟨newSha, content⟩) else none
    | none => none
  | none =>
    match provided with
    | some _ => none
    | none => some (ghSet st p ⟨newSha, content⟩)

/-- Model of the Contents API `DELETE`: the supplied sha must match. -/
def ghApiDelete (st : GHStore) (p : String) (provided : String) : Option GHStore :=
  match ghLookup st p with
  | some f => if provided = f.sha then some (ghRemove st p) else none
  | none => none

/-- One upstream call made by a handler, with the sha it supplied. -/
inductive GHCall
  | get (path : String)
  | put (path : String) (sha : Option String)
  | del (path : String) (sha : String)
deriving DecidableEq, Repr

/-- The gallery image directory path used by the image handlers. -/
def galleryDir : String := "assets/images/gallery"

/-- The path of an uploaded image file. -/
def galleryPath (filename : String) : String := galleryDir ++ "/" ++ filename

/-- The gallery listing file path. -/
def galleryYmlPath : String := "_data/gallery.yml"

/-- Raw file metadata of one directory listing element as GitHub returns
it. -/
structure ImgEntryRaw where
  fileType : String
  name : String
  sha : String
  size : Nat
  downloadUrl : String
deriving DecidableEq, Repr

/-- The upstream response to the directory listing `GET`: a 404, a JSON
array, or some other status with a non-array body. -/
inductive GHDirResp
  | status404
  | arr (files : List ImgEntryRaw)
  | nonArr (status : Nat)
deriving DecidableEq, Repr

/-- One element of the `/images` response body. -/
structure ImgMeta where
  name : String
  sha : String
  size : Nat
  downloadUrl : String
deriving DecidableEq, Repr

/-- Function `listImages`: a 404 from the store lists as the empty sequence with
status 200, as does a non-array body; an array body is filtered to plain
files other than the `.gitkeep` placeholder and mapped to the exposed
metadata. -/
def listImages (r : GHDirResp) : Nat × List ImgMeta :=
  match r with
  | .status404 => (200, [])
  | .arr files =>
    (200, (files.filter (fun f => f.fileType = "file" && ¬ f.name = ".gitkeep")).map
      (fun f => ⟨f.name, f.sha, f.size, f.downloadUrl⟩))
  | .nonArr _ => (200, [])

/-- Result of a writing handler: HTTP status, the sha returned to the
caller, the store afterwards and the upstream calls made, in order. -/
structure WriteOut where
  status : Nat
  sha : Option String
  store : GHStore
  calls : List GHCall
deriving DecidableEq, Repr

/-- Function `uploadImage`: missing filename or content is a 400; otherwise read the
file to learn its sha if it exists, `PUT` with that sha when one was found,
and answer 201 with the new sha on success, 500 on an upstream error. -/
def uploadImage (st : GHStore) (newSha : String)
    (filename content : Option String) : WriteOut :=
  if truthyS filename = false || truthyS content = false then ⟨400, none, st, []⟩
  else
    let path := galleryPath (filename.getD "")
    let sha : Option String :=
      match ghLookup st path with
      | some f => some f.sha
      | none => none
    let provided := if truthyS sha then sha else none
    match ghApiPut st path provided (content.getD "") newSha with
    | some st2 => ⟨201, some newSha, st2, [.get path, .put path provided]⟩
    | none => ⟨500, none, st, [.get path, .put path provided]⟩

/-- Function `deleteImage`: missing filename or sha is a 400; otherwise `DELETE` with
the supplied sha, 200 on success and 500 on an upstream error. -/
def deleteImage (st : GHStore) (filename sha : Option String) : Nat × GHStore × List GHCall :=
  if truthyS filename = false || truthyS sha = false then (400, st, [])
  else
    let path := galleryPath (filename.getD "")
    match ghApiDelete st path (sha.getD "") with
    | some st2 => (200, st2, [.del path (sha.getD "")])
    | none => (500, st, [.del path (sha.getD "")])

/-- Function `getGallery`: an absent listing file is entries empty with a null sha;
otherwise the decoded entries plus the file's sha, always status 200. -/
def getGallery (st : GHStore) : Nat × List Obj × Option String :=
  match ghLookup st galleryYmlPath with
  | none => (200, [], none)
  | some f => (200, parseSimpleYaml f.content, some f.sha)

/-- Function `updateGallery`: an absent content field is a 400; with no (truthy) sha
supplied the handler first reads the file's current sha; the `PUT` carries
the sha when one is known and answers 200 with the new sha on success, 500
on an upstream error. -/
def updateGallery (st : GHStore) (newSha : String)
    (content sha : Option String) : WriteOut :=
  match content with
  | none => ⟨400, none, st, []⟩
  | some c =>
    let read : Option String × List GHCall :=
      if truthyS sha then (sha, [])
      else
        match ghLookup st galleryYmlPath with
        | some f => (some f.sha, [.get galleryYmlPath])
        | none => (none, [.get galleryYmlPath])
    let provided := if truthyS read.1 then read.1 else none
    match ghApiPut st galleryYmlPath provided c newSha with
    | some st2 => ⟨200, some newSha, st2, read.2 ++ [.put galleryYmlPath provided]⟩
    | none => ⟨500, none, st, read.2 ++ [.put galleryYmlPath provided]⟩

/-! ## Request router

The `fetch` handler of `worker.js` (lines 10-66): preflight, origin gate,
the public `/auth` route, the JWT gate, the five content routes, the 404
fallthrough and the catch block turning any thrown error into a 500. -/

/-- The request-independent configuration: the allow-listed origin, the
signing secret, the password verifier outcome, the JWT serialisation
parameters, and the sha GitHub will assign to written content. -/
structure Cfg where
  allowedOrigin : String
  secret : List Char
  kdfOk : String → Bool
  mac : List Char → List Char → List Char
  encP : JWTPayloadJS → List Char
  decP : List Char → Option JWTPayloadJS
  newSha : String

/-- The mutable world a request acts on: the content store, the upstream
directory-listing response, the rate-limit binding and the current time. -/
structure World where
  gh : GHStore
  ghDir : GHDirResp
  rl : Option RLStore
  now : Nat
deriving DecidableEq, Repr

/-- An inbound request: method, path, headers and the per-route body
fields. -/
structure Request where
  method : String
  path : String
  origin : Option String
  authHeader : Option (List Char)
  password : Option String
  uploadFilename : Option String
  uploadContent : Option String
  deleteFilename : Option String
  deleteSha : Option String
  galleryContent : Option String
  gallerySha : Option String
deriving DecidableEq, Repr

/-- The router: answer preflight, reject a missing or foreign origin with
403 before anything else, serve `/auth` publicly, gate every other route on
a verified token (401 otherwise), dispatch the five content routes and fall
through to 404; a thrown error anywhere inside the try block becomes a
500. -/
def fetchRouter (cfg : Cfg) (w : World) (req : Request) : Nat × World × List Effect :=
  if req.method = "OPTIONS" then (200, w, [])
  else
    match req.origin with
    | none => (403, w, [])
    | some o =>
      if o = "" ∨ ¬ o = cfg.allowedOrigin then (403, w, [])
      else if req.path = "/auth" ∧ req.method = "POST" then
        let r := handleAuth cfg.kdfOk w.rl w.now req.password
        match r.1 with
        | .resp s => (s, { w with rl := r.2.1 }, r.2.2)
        | .thrown => (500, { w with rl := r.2.1 }, r.2.2)
      else
        match verifyJWT cfg.mac cfg.decP cfg.secret req.authHeader w.now with
        | .error _ => (500, w, [.tokenCheck])
        | .ok none => (401, w, [.tokenCheck])
        | .ok (some _) =>
          if req.path = "/images" ∧ req.method = "GET" then
            ((listImages w.ghDir).1, w, [.tokenCheck, .ghCall])
          else if req.path = "/upload" ∧ req.method = "POST" then
            let r := uploadImage w.gh cfg.newSha req.uploadFilename req.uploadContent
            (r.status, { w with gh := r.store }, .tokenCheck :: r.calls.map (fun _ => Effect.ghCall))
          else if req.path = "/delete-image" ∧ req.method = "POST" then
            let r := deleteImage w.gh req.deleteFilename req.deleteSha
            (r.1, { w with gh := r.2.1 }, .tokenCheck :: r.2.2.map (fun _ => Effect.ghCall))
          else if req.path = "/gallery" ∧ req.method = "GET" then
            ((getGallery w.gh).1, w, [.tokenCheck, .ghCall])
          else if req.path = "/gallery" ∧ req.method = "PUT" then
            let r := updateGallery w.gh cfg.newSha req.galleryContent req.gallerySha
            (r.status, { w with gh := r.store }, .tokenCheck :: r.calls.map (fun _ => Effect.ghCall))
          else (404, w, [.tokenCheck])

/-- Attempt sequencing for the rate-limit claims: run `/auth` attempts at
the given times against one identity, collecting each outcome and the final
rate-limit state. -/
def authAttempts (kdfOk : String → Bool) (password : Option String) :
    Option RLStore → List Nat → List HRes × Option RLStore
  | rl, [] => ([], rl)
  | rl, t :: ts =>
    let r := handleAuth kdfOk rl t password
    let rec2 := authAttempts kdfOk password r.2.1 ts
    (r.1 :: rec2.1, rec2.2)

/-- The single lines of one encoded entry block, in emission order. -/
def entryLines (e : GalleryEntry) : List (List Char) :=
  ("- image: \"".toList ++ e.image.toList ++ ['"']) ::
    ((match e.caption with
      | some c => if c ≠ "" then ["  caption: \"".toList ++ escQ c.toList ++ ['"']] else []
      | none => []) ++
     (match e.category with
      | some c => if c ≠ "" then ["  category: \"".toList ++ escQ c.toList ++ ['"']] else []
      | none => []))

/-- JavaScript `array.join` with a single newline, relating an entry block to
its lines. -/
def joinN1 : List (List Char) → List Char
  | [] => []
  | [x] => x
  | x :: y :: r => x ++ '\n' :: joinN1 (y :: r)

/-! ## Concrete instantiations

Toy instances of the external primitives (serialisation, MAC, password
verifier), used to evaluate the parametric theorems at concrete inputs.
They satisfy exactly the hypotheses the theorems place on the real
primitives at the inputs where they are used. -/

/-- The payload of a token issued to admin at time 0. -/
def payloadA : JWTPayloadJS := ⟨"admin", 0, some JWT_EXPIRY⟩

/-- A correctly-signed payload carrying no `exp` field. -/
def payloadNoExp : JWTPayloadJS := ⟨"admin", 0, none⟩

/-- Toy payload serialisation: injective and dot-free on the payloads in
use. -/
def encPToy (p : JWTPayloadJS) : List Char :=
  if p = payloadA then ['P'] else if p = payloadNoExp then ['N'] else ['Q']

/-- Toy payload deserialisation, a left inverse of `encPToy` on the payloads
in use. -/
def decPToy (l : List Char) : Option JWTPayloadJS :=
  if l = ['P'] then some payloadA else if l = ['N'] then some payloadNoExp else none

/-- Toy MAC: constant, dot-free. -/
def macToy (_s _m : List Char) : List Char := ['m']

/-- Toy signing secret. -/
def secretToy : List Char := ['k']

/-- The Authorization header the admin UI sends (`main.js` line 215). -/
def bearerOf (t : List Char) : List Char :=
  'B' :: 'e' :: 'a' :: 'r' :: 'e' :: 'r' :: ' ' :: t

/-- A concrete configuration built from the toy primitives. -/
def cfgToy : Cfg :=
  ⟨"https://example.org", secretToy, fun p => p = "hunter2", macToy, encPToy, decPToy, "sha-new"⟩

/-- A request shape with every optional field absent, to be overridden per
test. -/
def emptyReq : Request :=
  ⟨"GET", "/", none, none, none, none, none, none, none, none, none⟩

/-- Decidable equality of handler results in the exception monad, for
concrete evaluation. -/
instance {e : Type} {a : Type} [DecidableEq e] [DecidableEq a] : DecidableEq (Except e a) :=
  fun x y =>
    match x, y with
    | .error u, .error v =>
      if h : u = v then isTrue (by rw [h]) else isFalse (fun hh => h (Except.error.inj hh))
    | .ok u, .ok v =>
      if h : u = v then isTrue (by rw [h]) else isFalse (fun hh => h (Except.ok.inj hh))
    | .error _, .ok _ => isFalse (fun hh => Except.noConfusion hh)
    | .ok _, .error _ => isFalse (fun hh => Except.noConfusion hh)

/-! ## Codec round-trip: helper lemmas -/

theorem mk_toList (s : String) : String.mk s.toList = s := rfl

theorem splitOnChar_of_not_mem {sep : Char} {l : List Char} (h : sep ∉ l) :
    splitOnChar sep l = [l] := by
  induction l with
  | nil => rfl
  | cons c t ih =>
    simp only [List.mem_cons, not_or] at h
    have hc : ¬ c = sep := fun e => h.1 e.symm
    rw [splitOnChar, if_neg hc, ih h.2]

theorem splitOnChar_append {sep : Char} {a : List Char} (b : List Char) (h : sep ∉ a) :
    splitOnChar sep (a ++ sep :: b) = a :: splitOnChar sep b := by
  induction a with
  | nil => simp [splitOnChar]
  | cons c t ih =>
    simp only [List.mem_cons, not_or] at h
    have hc : ¬ c = sep := fun e => h.1 e.symm
    rw [List.cons_append, splitOnChar, if_neg hc, ih h.2]

theorem jsTrim_firstlast {a b : Char} (m : List Char)
    (ha : isJsSpace a = false) (hb : isJsSpace b = false) :
    jsTrimChars (a :: (m ++ [b])) = a :: (m ++ [b]) := by
  have h1 : (a :: (m ++ [b])).dropWhile isJsSpace = a :: (m ++ [b]) := by
    simp [List.dropWhile_cons, ha]
  rw [jsTrimChars, h1, dropTrailingSpaces]
  have h2 : (a :: (m ++ [b])).reverse = b :: (m.reverse ++ [a]) := by simp
  rw [h2]
  have h3 : (b :: (m.reverse ++ [a])).dropWhile isJsSpace = b :: (m.reverse ++ [a]) := by
    simp [List.dropWhile_cons, hb]
  rw [h3]
  simp

theorem jsTrim_cons_space (l : List Char) : jsTrimChars (' ' :: l) = jsTrimChars l := by
  rw [jsTrimChars, jsTrimChars, List.dropWhile_cons]
  simp [isJsSpace]

theorem takeWhile_append_neg {p : Char → Bool} {a : List Char} (ha : ∀ c ∈ a, p c = true)
    {b : Char} (hb : p b = false) (t : List Char) :
    ((a ++ b :: t).takeWhile p) = a := by
  induction a with
  | nil => simp [List.takeWhile_cons, hb]
  | cons c cs ih =>
    have hc := ha c (by simp)
    rw [List.cons_append, List.takeWhile_cons, ih (fun x hx => ha x (by simp [hx]))]
    simp [hc]

theorem dropWhile_append_neg {p : Char → Bool} {a : List Char} (ha : ∀ c ∈ a, p c = true)
    {b : Char} (hb : p b = false) (t : List Char) :
    ((a ++ b :: t).dropWhile p) = b :: t := by
  induction a with
  | nil => simp [List.dropWhile_cons, hb]
  | cons c cs ih =>
    have hc := ha c (by simp)
    simp only [List.cons_append, List.dropWhile_cons, hc]
    exact ih (fun x hx => ha x (by simp [hx]))

theorem stripQuotes_quoted (v : List Char) :
    stripQuotesChars ('"' :: (v ++ ['"'])) = v := by
  rw [stripQuotesChars, if_pos]
  · simp
  · left
    constructor
    · rfl
    · rw [show ('"' :: (v ++ ['"'])) = ('"' :: v) ++ ['"'] by simp]
      exact List.getLast?_concat _

theorem parseYamlKV_quoted {key : List Char} (v : List Char) (hk : ¬ key = [])
    (hw : ∀ c ∈ key, isWordChar c = true) :
    parseYamlKVChars (key ++ ':' :: ' ' :: '"' :: (v ++ ['"'])) = some (⟨key⟩, ⟨v⟩) := by
  rw [parseYamlKVChars]
  simp only [takeWhile_append_neg hw (show isWordChar ':' = false by decide),
    dropWhile_append_neg hw (show isWordChar ':' = false by decide)]
  rw [if_neg (by simp [List.isEmpty_iff, hk])]
  have hdw : (':' :: ' ' :: '"' :: (v ++ ['"'])).dropWhile isJsSpace
      = ':' :: ' ' :: '"' :: (v ++ ['"']) := by
    simp [List.dropWhile_cons, isJsSpace]
  rw [hdw]
  have htrim : jsTrimChars (' ' :: '"' :: (v ++ ['"'])) = '"' :: (v ++ ['"']) := by
    rw [jsTrim_cons_space]
    exact jsTrim_firstlast v (by decide) (by decide)
  simp only [htrim, stripQuotes_quoted]

theorem escQ_of_no_quote {l : List Char} (h : '"' ∉ l) : escQ l = l := by
  induction l with
  | nil => rfl
  | cons c t ih =>
    simp only [List.mem_cons, not_or] at h
    rw [escQ, if_neg (fun e => h.1 e.symm), ih h.2]

theorem entryToYamlChars_eq (e : GalleryEntry) :
    entryToYamlChars e = joinN1 (entryLines e) := by
  rcases e with ⟨img, cap, cat⟩
  rcases cap with _ | c <;> rcases cat with _ | d <;>
    simp only [entryToYamlChars, entryLines] <;>
    [skip; split; split; (split <;> split)] <;>
    simp_all [joinN1, List.append_assoc]

theorem entryLines_ne_nil (e : GalleryEntry) : entryLines e ≠ [] := by
  simp [entryLines]

theorem entryLines_noNL {e : GalleryEntry} (he : goodEntry e) :
    ∀ l ∈ entryLines e, '\n' ∉ l := by
  obtain ⟨him, hcap, hcat⟩ := he
  intro l hl
  rcases e with ⟨img, cap, cat⟩
  simp only [entryLines, List.mem_cons, List.mem_append] at hl
  rcases hl with rfl | hl
  · intro hmem
    simp only [List.mem_append, List.mem_cons] at hmem
    rcases hmem with (h | h) | h
    · revert h; decide
    · exact him h
    · simp at h
  · have hfield : ∀ (pre : List Char) (c : String), '\n' ∉ pre → goodOpt (some c) →
        l = pre ++ escQ c.toList ++ ['"'] → '\n' ∉ l := by
      rintro pre c hpre ⟨hne, hnl, hq⟩ rfl
      rw [escQ_of_no_quote hq]
      intro hmem
      simp only [List.mem_append, List.mem_cons] at hmem
      rcases hmem with (h | h) | h
      · exact hpre h
      · exact hnl h
      · simp at h
    rcases hl with hl | hl
    · rcases cap with _ | c
      · simp at hl
      · simp only at hl
        split at hl
        · simp only [List.mem_singleton] at hl
          exact hfield _ c (by decide) hcap hl
        · simp at hl
    · rcases cat with _ | c
      · simp at hl
      · simp only at hl
        split at hl
        · simp only [List.mem_singleton] at hl
          exact hfield _ c (by decide) hcat hl
        · simp at hl

theorem splitOnChar_joinN1 {ls : List (List Char)} (hne : ls ≠ [])
    (hnl : ∀ l ∈ ls, '\n' ∉ l) (t : List Char) :
    splitOnChar '\n' (joinN1 ls ++ '\n' :: t) = ls ++ splitOnChar '\n' t := by
  induction ls with
  | nil => exact absurd rfl hne
  | cons x xs ih =>
    cases xs with
    | nil =>
      rw [joinN1, splitOnChar_append t (hnl x (by simp))]
      rfl
    | cons y r =>
      rw [joinN1, List.append_assoc, List.cons_append,
        splitOnChar_append _ (hnl x (by simp)),
        ih (by simp) (fun l hl => hnl l (by simp [hl]))]
      rfl


/-! ## Codec round-trip: processing one line -/

theorem pushCur_some (entries : List Obj) (c : Obj) : pushCur entries (some c) = entries ++ [c] := rfl

theorem wordChar_not_space {c : Char} (h : isWordChar c = true) : isJsSpace c = false := by
  by_contra hcon
  rw [Bool.not_eq_false] at hcon
  have hc : c = ' ' ∨ c = '\t' ∨ c = '\n' ∨ c = '\r' ∨ c = Char.ofNat 11 ∨ c = Char.ofNat 12 := by
    simpa [isJsSpace, or_assoc] using hcon
  rcases hc with rfl | rfl | rfl | rfl | rfl | rfl <;> exact absurd h (by decide)

theorem wordChar_ne {c : Char} (h : isWordChar c = true) {d : Char}
    (hd : isWordChar d = false) : ¬ c = d := by
  intro e
  rw [e, hd] at h
  cases h

theorem parseLine_blank (st : List Obj × Option Obj) : parseLine st [] = st := rfl

theorem parseLine_imageLine (st : List Obj × Option Obj) (img : List Char) :
    parseLine st ("- image: \"".toList ++ img ++ ['"']) =
      (pushCur st.1 st.2, some [("image", ⟨img⟩)]) := by
  have hcons : "- image: \"".toList ++ img ++ ['"']
      = '-' :: ' ' :: ("image: \"".toList ++ img ++ ['"']) := by
    have hlit : ("- image: \"".toList : List Char) = '-' :: ' ' :: "image: \"".toList := by decide
    simp [hlit, List.append_assoc]
  have htrim : jsTrimChars ('-' :: ' ' :: ("image: \"".toList ++ img ++ ['"']))
      = '-' :: ' ' :: ("image: \"".toList ++ img ++ ['"']) := by
    have hsh : '-' :: ' ' :: ("image: \"".toList ++ img ++ ['"'])
        = '-' :: ((' ' :: ("image: \"".toList ++ img)) ++ ['"']) := by
      simp [List.append_assoc]
    rw [hsh, jsTrim_firstlast _ (by decide) (by decide), ← hsh]
  have hkv : parseYamlKVChars ("image: \"".toList ++ img ++ ['"'])
      = some ("image", ⟨img⟩) := by
    have hshape : "image: \"".toList ++ img ++ ['"']
        = ['i', 'm', 'a', 'g', 'e'] ++ ':' :: ' ' :: '"' :: (img ++ ['"']) := by
      have hlit : ("image: \"".toList : List Char) = ['i', 'm', 'a', 'g', 'e', ':', ' ', '"'] := by
        decide
      simp [hlit, List.append_assoc]
    rw [hshape, parseYamlKV_quoted img (by simp) (by decide)]
  rw [hcons, parseLine]
  simp only [htrim]
  have htake : ('-' :: ' ' :: ("image: \"".toList ++ img ++ ['"'])).take 2 = ['-', ' '] := rfl
  have hdrop : ('-' :: ' ' :: ("image: \"".toList ++ img ++ ['"'])).drop 2
      = "image: \"".toList ++ img ++ ['"'] := rfl
  rw [if_neg (by simp), if_neg (by simp), if_pos htake, hdrop, hkv]
  rfl

theorem parseLine_fieldLine {key : List Char} (hk : ¬ key = [])
    (hw : ∀ c ∈ key, isWordChar c = true) (acc : List Obj) (c0 : Obj) (v : List Char) :
    parseLine (acc, some c0) (' ' :: ' ' :: (key ++ ':' :: ' ' :: '"' :: (v ++ ['"']))) =
      (acc, some (insertKV c0 ⟨key⟩ ⟨v⟩)) := by
  obtain ⟨k0, key', rfl⟩ : ∃ k0 key', key = k0 :: key' := by
    cases key with
    | nil => exact absurd rfl hk
    | cons a b => exact ⟨a, b, rfl⟩
  have hk0 : isWordChar k0 = true := hw k0 (by simp)
  have htrim : jsTrimChars (' ' :: ' ' :: ((k0 :: key') ++ ':' :: ' ' :: '"' :: (v ++ ['"'])))
      = (k0 :: key') ++ ':' :: ' ' :: '"' :: (v ++ ['"']) := by
    have hsh : (k0 :: key') ++ ':' :: ' ' :: '"' :: (v ++ ['"'])
        = k0 :: ((key' ++ ':' :: ' ' :: '"' :: v) ++ ['"']) := by
      simp [List.append_assoc]
    rw [jsTrim_cons_space, jsTrim_cons_space, hsh,
      jsTrim_firstlast _ (wordChar_not_space hk0) (by decide), ← hsh]
  rw [parseLine]
  simp only [htrim]
  rw [if_neg (by simp), if_neg ?hash, if_neg ?dash]
  case hash =>
    simp only [List.cons_append, List.head?_cons, Option.some.injEq]
    exact wordChar_ne hk0 (by decide)
  case dash =>
    intro h
    have hts : ((k0 :: key') ++ ':' :: ' ' :: '"' :: (v ++ ['"'])).take 2
        = k0 :: ((key' ++ ':' :: ' ' :: '"' :: (v ++ ['"'])).take 1) := rfl
    rw [hts, List.cons_eq_cons] at h
    exact absurd h.1 (wordChar_ne hk0 (by decide))
  rw [if_pos (by simp), parseYamlKV_quoted v hk hw]

/-! ## Codec round-trip: one entry block -/

theorem insertKV_img_cap (i c : String) :
    insertKV [("image", i)] "caption" c = [("image", i), ("caption", c)] := by
  rw [insertKV, if_neg (by decide), insertKV]

theorem insertKV_img_cat (i d : String) :
    insertKV [("image", i)] "category" d = [("image", i), ("category", d)] := by
  rw [insertKV, if_neg (by decide), insertKV]

theorem insertKV_img_cap_cat (i c d : String) :
    insertKV [("image", i), ("caption", c)] "category" d =
      [("image", i), ("caption", c), ("category", d)] := by
  rw [insertKV, if_neg (by decide), insertKV, if_neg (by decide), insertKV]

theorem capLine_shape {c : String} (hq : '"' ∉ c.toList) :
    "  caption: \"".toList ++ escQ c.toList ++ ['"']
      = ' ' :: ' ' :: (['c', 'a', 'p', 't', 'i', 'o', 'n'] ++ ':' :: ' ' :: '"' :: (c.toList ++ ['"'])) := by
  rw [escQ_of_no_quote hq]
  have hlit : ("  caption: \"".toList : List Char)
      = [' ', ' ', 'c', 'a', 'p', 't', 'i', 'o', 'n', ':', ' ', '"'] := by decide
  simp [hlit, List.append_assoc]

theorem catLine_shape {c : String} (hq : '"' ∉ c.toList) :
    "  category: \"".toList ++ escQ c.toList ++ ['"']
      = ' ' :: ' ' :: (['c', 'a', 't', 'e', 'g', 'o', 'r', 'y'] ++ ':' :: ' ' :: '"' :: (c.toList ++ ['"'])) := by
  rw [escQ_of_no_quote hq]
  have hlit : ("  category: \"".toList : List Char)
      = [' ', ' ', 'c', 'a', 't', 'e', 'g', 'o', 'r', 'y', ':', ' ', '"'] := by decide
  simp [hlit, List.append_assoc]

theorem foldl_entryBlock {e : GalleryEntry} (he : goodEntry e) (st : List Obj × Option Obj)
    (rest : List (List Char)) :
    (entryLines e ++ rest).foldl parseLine st =
      rest.foldl parseLine (pushCur st.1 st.2, some (entryToObj e)) := by
  obtain ⟨him, hcap, hcat⟩ := he
  rcases e with ⟨img, cap, cat⟩
  rcases cap with _ | c <;> rcases cat with _ | d
  · simp only [entryLines, List.nil_append, List.append_nil, List.cons_append, List.foldl_cons,
      parseLine_imageLine, mk_toList]
    rfl
  · obtain ⟨hd1, hd2, hd3⟩ := hcat
    simp only [entryLines, List.nil_append, List.cons_append, List.foldl_cons]
    rw [if_pos hd1]
    simp only [List.cons_append, List.nil_append, List.foldl_cons, parseLine_imageLine, mk_toList]
    rw [catLine_shape hd3, parseLine_fieldLine (by simp) (by decide)]
    have : (⟨['c', 'a', 't', 'e', 'g', 'o', 'r', 'y']⟩ : String) = "category" := rfl
    rw [this, mk_toList, insertKV_img_cat]
    rfl
  · obtain ⟨hc1, hc2, hc3⟩ := hcap
    simp only [entryLines, List.append_nil, List.cons_append, List.foldl_cons]
    rw [if_pos hc1]
    simp only [List.cons_append, List.nil_append, List.append_nil, List.foldl_cons,
      parseLine_imageLine, mk_toList]
    rw [capLine_shape hc3, parseLine_fieldLine (by simp) (by decide)]
    have : (⟨['c', 'a', 'p', 't', 'i', 'o', 'n']⟩ : String) = "caption" := rfl
    rw [this, mk_toList, insertKV_img_cap]
    rfl
  · obtain ⟨hc1, hc2, hc3⟩ := hcap
    obtain ⟨hd1, hd2, hd3⟩ := hcat
    simp only [entryLines, List.cons_append, List.foldl_cons]
    rw [if_pos hc1, if_pos hd1]
    simp only [List.cons_append, List.nil_append, List.foldl_cons, parseLine_imageLine, mk_toList]
    rw [capLine_shape hc3, parseLine_fieldLine (by simp) (by decide)]
    have h1 : (⟨['c', 'a', 'p', 't', 'i', 'o', 'n']⟩ : String) = "caption" := rfl
    rw [h1, mk_toList, insertKV_img_cap]
    rw [catLine_shape hd3, parseLine_fieldLine (by simp) (by decide)]
    have h2 : (⟨['c', 'a', 't', 'e', 'g', 'o', 'r', 'y']⟩ : String) = "category" := rfl
    rw [h2, mk_toList, insertKV_img_cap_cat]
    rfl

theorem splitOnChar_cons_sep (sep : Char) (l : List Char) :
    splitOnChar sep (sep :: l) = [] :: splitOnChar sep l := by
  rw [splitOnChar, if_pos rfl]

theorem foldl_encode (es : List GalleryEntry) (h : ∀ e ∈ es, goodEntry e) (hne : ¬ es = [])
    (st : List Obj × Option Obj) :
    pushCur ((splitOnChar '\n' (joinNN (es.map entryToYamlChars) ++ ['\n'])).foldl parseLine st).1
        ((splitOnChar '\n' (joinNN (es.map entryToYamlChars) ++ ['\n'])).foldl parseLine st).2
      = pushCur st.1 st.2 ++ es.map entryToObj := by
  induction es generalizing st with
  | nil => exact absurd rfl hne
  | cons e es ih =>
    cases es with
    | nil =>
      simp only [List.map_cons, List.map_nil, joinNN, entryToYamlChars_eq]
      rw [show (joinN1 (entryLines e) ++ ['\n']) = joinN1 (entryLines e) ++ '\n' :: [] from rfl,
        splitOnChar_joinN1 (entryLines_ne_nil e) (entryLines_noNL (h e (by simp))),
        show splitOnChar '\n' [] = [[]] from rfl,
        foldl_entryBlock (h e (by simp))]
      simp [parseLine_blank, pushCur]
    | cons e2 es2 =>
      simp only [List.map_cons, joinNN, entryToYamlChars_eq]
      rw [show ((joinN1 (entryLines e) ++ '\n' :: '\n' :: joinNN (joinN1 (entryLines e2) :: List.map entryToYamlChars es2)) ++ ['\n'])
            = joinN1 (entryLines e) ++ '\n' :: ('\n' :: (joinNN (joinN1 (entryLines e2) :: List.map entryToYamlChars es2) ++ ['\n'])) from by
          simp [List.append_assoc],
        splitOnChar_joinN1 (entryLines_ne_nil e) (entryLines_noNL (h e (by simp))),
        splitOnChar_cons_sep,
        foldl_entryBlock (h e (by simp))]
      rw [List.foldl_cons, parseLine_blank]
      have hrec := ih (fun x hx => h x (by simp [hx])) (by simp)
        ((pushCur st.1 st.2, some (entryToObj e)) : List Obj × Option Obj)
      simp only [List.map_cons, joinNN, entryToYamlChars_eq] at hrec
      rw [hrec]
      simp [pushCur, List.append_assoc]

/-- Round-trip of the gallery codec on entries within the provable fragment:
newline-free image names, captions and categories that are (when present)
nonempty, newline-free and free of double quotes. -/
theorem galleryCodec_roundTrip (es : List GalleryEntry) (h : ∀ e ∈ es, goodEntry e) :
    parseSimpleYaml (galleryToYaml es) = es.map entryToObj := by
  cases es with
  | nil => decide
  | cons e es2 =>
    rw [parseSimpleYaml, galleryToYaml]
    have hchars : ((⟨galleryToYamlChars (e :: es2)⟩ : String)).toList
        = joinNN ((e :: es2).map entryToYamlChars) ++ ['\n'] := rfl
    rw [hchars]
    exact foldl_encode (e :: es2) h (by simp) ([], none)

/-! ## JWT lemmas -/

theorem splitOnChar_three {sep : Char} {a b c : List Char}
    (ha : sep ∉ a) (hb : sep ∉ b) (hc : sep ∉ c) :
    splitOnChar sep (a ++ sep :: (b ++ sep :: c)) = [a, b, c] := by
  rw [splitOnChar_append _ ha, splitOnChar_append _ hb, splitOnChar_of_not_mem hc]

theorem stripBearer_bearerOf (t : List Char) : stripBearer (bearerOf t) = some t := rfl

theorem verifyJWT_signed (mac : List Char → List Char → List Char)
    (decP : List Char → Option JWTPayloadJS) (secret h p1 : List Char) (p : JWTPayloadJS)
    (hdec : decP p1 = some p) (hd0 : '.' ∉ h) (hd1 : '.' ∉ p1)
    (hd2 : '.' ∉ mac secret (h ++ '.' :: p1)) (now : Nat) :
    verifyJWT mac decP secret (some (bearerOf (h ++ '.' :: (p1 ++ '.' :: mac secret (h ++ '.' :: p1))))) now
      = .ok (if expRejects p.exp now then none else some p) := by
  simp only [verifyJWT, stripBearer_bearerOf, splitOnChar_three hd0 hd1 hd2]
  simp [hdec]

/-! ## Claim theorems -/

/-- Claim C2, corrected.  A token minted by `signJWT` at time `T` for any
subject carries `exp = T + 7200`, and verification with the same secret
succeeds exactly while `now` is at most `T + 7200`: it succeeds at `T + 1`
and at `T + 7200` itself, and fails from `T + 7201` onward, because the
code rejects only when `exp < now`, not when `exp = now`.  The
serialisation and MAC parameters stand for base64url-JSON and HMAC-SHA256,
constrained to decode what they encode and to produce dot-free output. -/
theorem C2_expiry_boundary (mac : List Char → List Char → List Char)
    (encP : JWTPayloadJS → List Char) (decP : List Char → Option JWTPayloadJS)
    (secret : List Char) (S : String) (T now : Nat)
    (hdec : decP (encP ⟨S, T, some (T + JWT_EXPIRY)⟩) = some ⟨S, T, some (T + JWT_EXPIRY)⟩)
    (hd1 : '.' ∉ encP ⟨S, T, some (T + JWT_EXPIRY)⟩)
    (hd2 : '.' ∉ mac secret (headerB64 ++ '.' :: encP ⟨S, T, some (T + JWT_EXPIRY)⟩)) :
    verifyJWT mac decP secret
        (some (bearerOf (signJWT mac encP secret ⟨S, T, some (T + JWT_EXPIRY)⟩))) now
      = .ok (if T + JWT_EXPIRY < now then none else some ⟨S, T, some (T + JWT_EXPIRY)⟩) := by
  have hh : ('.' : Char) ∉ headerB64 := by decide
  rw [signJWT]
  rw [show (headerB64 ++ '.' :: encP ⟨S, T, some (T + JWT_EXPIRY)⟩) ++ '.' ::
        mac secret (headerB64 ++ '.' :: encP ⟨S, T, some (T + JWT_EXPIRY)⟩)
      = headerB64 ++ '.' :: (encP ⟨S, T, some (T + JWT_EXPIRY)⟩ ++ '.' ::
        mac secret (headerB64 ++ '.' :: encP ⟨S, T, some (T + JWT_EXPIRY)⟩)) from by
      simp [List.append_assoc]]
  rw [verifyJWT_signed mac decP secret _ _ _ hdec hh hd1 hd2]
  have hne : ¬ T + JWT_EXPIRY = 0 := by simp [JWT_EXPIRY]
  by_cases hlt : T + JWT_EXPIRY < now <;> simp [expRejects, hne, hlt]

/-- Witness for C2: with the toy primitives, a token issued to admin at
time 0 is still accepted at second 7200 and rejected at second 7201. -/
theorem C2_expiry_boundary_witness :
    verifyJWT macToy decPToy secretToy
        (some (bearerOf (signJWT macToy encPToy secretToy ⟨"admin", 0, some (0 + JWT_EXPIRY)⟩))) 7200
      = .ok (some ⟨"admin", 0, some (0 + JWT_EXPIRY)⟩) ∧
    verifyJWT macToy decPToy secretToy
        (some (bearerOf (signJWT macToy encPToy secretToy ⟨"admin", 0, some (0 + JWT_EXPIRY)⟩))) 7201
      = .ok none := by
  constructor
  · rw [C2_expiry_boundary macToy encPToy decPToy secretToy "admin" 0 7200
      (by decide) (by decide) (by decide)]
    decide
  · rw [C2_expiry_boundary macToy encPToy decPToy secretToy "admin" 0 7201
      (by decide) (by decide) (by decide)]
    decide

/-- Counterexample to claim C2 as stated: the claim demands the token be
invalid at every time from `T + 7200` onward, but at `now = T + 7200`
exactly (subject admin, `T = 0`) a correctly-signed token still verifies,
under serialisation and MAC instances satisfying the stated faithfulness
facts. -/
theorem C2_expiry_boundary_cex :
    decPToy (encPToy ⟨"admin", 0, some (0 + JWT_EXPIRY)⟩) = some ⟨"admin", 0, some (0 + JWT_EXPIRY)⟩ ∧
    '.' ∉ encPToy ⟨"admin", 0, some (0 + JWT_EXPIRY)⟩ ∧
    0 + JWT_EXPIRY = 7200 ∧
    verifyJWT macToy decPToy secretToy
        (some (bearerOf (signJWT macToy encPToy secretToy ⟨"admin", 0, some (0 + JWT_EXPIRY)⟩))) 7200
      ≠ .ok none := by decide

/-- Claim C10, confirmed.  A correctly-signed three-part token whose
decoded payload has no `exp` field or `exp = 0` is accepted by `verifyJWT`
at every time: the truthiness guard `payload.exp && payload.exp < now`
skips the expiry check for falsy `exp`. -/
theorem C10_no_exp_accepted (mac : List Char → List Char → List Char)
    (decP : List Char → Option JWTPayloadJS) (secret h p1 : List Char) (p : JWTPayloadJS)
    (hdec : decP p1 = some p) (hexp : p.exp = none ∨ p.exp = some 0)
    (hd0 : '.' ∉ h) (hd1 : '.' ∉ p1) (hd2 : '.' ∉ mac secret (h ++ '.' :: p1)) (now : Nat) :
    verifyJWT mac decP secret
        (some (bearerOf (h ++ '.' :: (p1 ++ '.' :: mac secret (h ++ '.' :: p1))))) now
      = .ok (some p) := by
  rw [verifyJWT_signed mac decP secret h p1 p hdec hd0 hd1 hd2 now]
  rcases hexp with he | he <;> simp [expRejects, he]

/-- Witness for C10: a signed token with an exp-free payload is accepted a
thousand years in. -/
theorem C10_no_exp_accepted_witness :
    verifyJWT macToy decPToy secretToy
        (some (bearerOf (['H'] ++ '.' :: (['N'] ++ '.' :: macToy secretToy (['H'] ++ '.' :: ['N'])))))
        33000000000
      = .ok (some payloadNoExp) :=
  C10_no_exp_accepted macToy decPToy secretToy ['H'] ['N'] payloadNoExp
    (by decide) (Or.inl rfl) (by decide) (by decide) (by decide) 33000000000

/-- Claim C5, confirmed.  A non-preflight request whose Origin header is
absent or names anything other than the allow-listed origin is answered
403 on every route, with no rate-limit access, no credential check, no
token verification and no upstream call, and with the world unchanged. -/
theorem C5_origin_gate (cfg : Cfg) (w : World) (req : Request)
    (hm : ¬ req.method = "OPTIONS")
    (ho : req.origin = none ∨ ∀ o, req.origin = some o → ¬ o = cfg.allowedOrigin) :
    fetchRouter cfg w req = (403, w, []) := by
  rcases ho with h | h
  · simp [fetchRouter, hm, h]
  · cases hreq : req.origin with
    | none => simp [fetchRouter, hm, hreq]
    | some o =>
      have hno := h o hreq
      simp [fetchRouter, hm, hreq, hno]

/-- Witness for C5: a GET for the gallery data with no Origin header is
rejected 403 with no effects. -/
theorem C5_origin_gate_witness :
    fetchRouter cfgToy ⟨[], GHDirResp.status404, none, 0⟩
        { emptyReq with path := "/gallery", method := "GET" }
      = (403, ⟨[], GHDirResp.status404, none, 0⟩, []) :=
  C5_origin_gate cfgToy _ _ (by decide) (Or.inl rfl)

/-- Claim C9, confirmed.  When the remote store answers the gallery
directory listing with a 404, `listImages` responds 200 with the empty
sequence rather than an error. -/
theorem C9_list_absent : listImages GHDirResp.status404 = (200, []) := rfl

/-- Claim C1, corrected.  Decoding the encoded gallery reproduces the
entries (as their JavaScript objects, fields in emission order) for every
sequence whose image names are newline-free and whose captions and
categories, when present, are nonempty, newline-free and contain no double
quote; this covers absent captions and categories and the empty sequence.
Values with double quotes do not round-trip (the decoder never removes the
backslash the encoder inserts), and a present-but-empty caption or category
is dropped by the encoder. -/
theorem C1_roundtrip (es : List GalleryEntry) (h : ∀ e ∈ es, goodEntry e) :
    parseSimpleYaml (galleryToYaml es) = es.map entryToObj :=
  galleryCodec_roundTrip es h

/-- Witness for C1: a mixed concrete gallery — quotes in an image name,
spaces, an apostrophe in a category, absent fields — round-trips, and so
does the empty gallery. -/
theorem C1_roundtrip_witness :
    parseSimpleYaml (galleryToYaml
        [⟨"a b.jpg", some "hello world", some "nature"⟩,
         ⟨"c\"d.png", none, some "x: y"⟩,
         ⟨"e.webp", some " spaced ", none⟩])
      = [⟨"a b.jpg", some "hello world", some "nature"⟩,
         ⟨"c\"d.png", none, some "x: y"⟩,
         ⟨"e.webp", some " spaced ", none⟩].map entryToObj ∧
    parseSimpleYaml (galleryToYaml []) = [] := by
  constructor
  · exact C1_roundtrip _ (by decide)
  · exact C1_roundtrip [] (by decide)

/-- Counterexample to claim C1 as stated: a caption containing a double
quote decodes with the inserted backslash still present, and a
present-but-empty caption is dropped entirely, so `decode(encode(entries))
= entries` fails on quote-containing and on empty present fields. -/
theorem C1_roundtrip_cex :
    parseSimpleYaml (galleryToYaml [⟨"a.jpg", some "x\"y", none⟩])
        ≠ [⟨"a.jpg", some "x\"y", none⟩].map entryToObj ∧
    parseSimpleYaml (galleryToYaml [⟨"b.jpg", some "", none⟩])
        ≠ [⟨"b.jpg", some "", none⟩].map entryToObj := by decide

/-! ## Rate limiter lemmas -/

theorem handleAuth_allowed (kdfOk : String → Bool) (pwd : Option String) (store : RLStore)
    (now cnt : Nat) (hav : store.available = true)
    (hget : kvGet store.entry now = some cnt) (hlt : cnt < RLIMIT_MAX) :
    handleAuth kdfOk (some store) now pwd
      = ((handleAuthBody kdfOk pwd).1,
         some { store with entry := some ⟨cnt + 1, now + RLIMIT_WINDOW⟩ },
         .rlAccess :: (handleAuthBody kdfOk pwd).2) := by
  simp [handleAuth, hav, hget, Nat.not_le.mpr hlt]

theorem handleAuth_fresh (kdfOk : String → Bool) (pwd : Option String) (store : RLStore)
    (now : Nat) (hav : store.available = true) (hget : kvGet store.entry now = none) :
    handleAuth kdfOk (some store) now pwd
      = ((handleAuthBody kdfOk pwd).1,
         some { store with entry := some ⟨1, now + RLIMIT_WINDOW⟩ },
         .rlAccess :: (handleAuthBody kdfOk pwd).2) := by
  simp [handleAuth, hav, hget, RLIMIT_MAX]

theorem handleAuth_denied (kdfOk : String → Bool) (pwd : Option String) (store : RLStore)
    (now cnt : Nat) (hav : store.available = true)
    (hget : kvGet store.entry now = some cnt) (hge : RLIMIT_MAX ≤ cnt) :
    handleAuth kdfOk (some store) now pwd = (HRes.resp 429, some store, [.rlAccess]) := by
  simp [handleAuth, hav, hget, hge]

theorem handleAuthBody_ne_429 (kdfOk : String → Bool) (pwd : Option String) :
    ¬ (handleAuthBody kdfOk pwd).1 = HRes.resp 429 := by
  rw [handleAuthBody]
  split
  · simp
  · split <;> simp

/-- Claim C3, corrected.  Each allowed attempt writes the counter back with
a time-to-live of 3600 seconds measured from that write — the most recent
increment, not the first of the window — and once the last write's TTL has
elapsed the stored entry no longer reads back, so the next attempt is
allowed again regardless of the count it carried. -/
theorem C3_window_reset (kdfOk : String → Bool) (pwd : Option String) (store : RLStore)
    (now : Nat) (hav : store.available = true) :
    (∀ cnt, kvGet store.entry now = some cnt → cnt < RLIMIT_MAX →
      (handleAuth kdfOk (some store) now pwd).2.1
        = some { store with entry := some ⟨cnt + 1, now + RLIMIT_WINDOW⟩ }) ∧
    (∀ e, store.entry = some e → e.expiry ≤ now →
      ¬ (handleAuth kdfOk (some store) now pwd).1 = HRes.resp 429) := by
  constructor
  · intro cnt hget hlt
    rw [handleAuth_allowed kdfOk pwd store now cnt hav hget hlt]
  · intro e he hexp
    have hget : kvGet store.entry now = none := by
      simp [kvGet, he, Nat.not_lt.mpr hexp]
    rw [handleAuth_fresh kdfOk pwd store now hav hget]
    exact handleAuthBody_ne_429 kdfOk pwd

/-- Witness for C3: an attempt at second 5000 against a counter of five
denials whose last TTL ran out at second 4600 is allowed again, and an
allowed attempt at second 2000 stores expiry 5600. -/
theorem C3_window_reset_witness :
    ¬ (handleAuth (fun p => p = "x") (some ⟨true, some ⟨5, 4600⟩⟩) 5000 (some "x")).1
        = HRes.resp 429 ∧
    (handleAuth (fun p => p = "x") (some ⟨true, some ⟨1, 3600⟩⟩) 2000 (some "x")).2.1
        = some ⟨true, some ⟨2, 5600⟩⟩ := by
  constructor
  · exact (C3_window_reset (fun p => p = "x") (some "x") ⟨true, some ⟨5, 4600⟩⟩ 5000 rfl).2
      ⟨5, 4600⟩ rfl (by decide)
  · exact (C3_window_reset (fun p => p = "x") (some "x") ⟨true, some ⟨1, 3600⟩⟩ 2000 rfl).1
      1 (by decide) (by decide)

/-- Counterexample to claim C3 as stated: attempts at seconds 0 and 2000
leave a counter expiring at second 5600, and at second 4000 — after the
3600-second window measured from the first increment has elapsed — the
count still reads back as 2 instead of having reset to zero. -/
theorem C3_window_reset_cex :
    (authAttempts (fun p => p = "x") (some "x") (some ⟨true, none⟩) [0, 2000]).2
        = some ⟨true, some ⟨2, 5600⟩⟩ ∧
    kvGet (some ⟨2, 5600⟩) 4000 = some 2 := by decide

/-- Claim C4, corrected.  When no rate-limit store is configured the
authentication request proceeds directly to password verification; but when
a configured store is unavailable, the read rejection escapes to the catch
block and the request fails with 500 instead of proceeding — the limiter
fails open only for an absent binding, not for a failing store. -/
theorem C4_fail_open (kdfOk : String → Bool) (now : Nat) (p : String) (hp : ¬ p = "") :
    handleAuth kdfOk none now (some p)
        = (HRes.resp (if kdfOk p then 200 else 401), none, [Effect.kdf]) ∧
    (∀ store : RLStore, store.available = false →
      handleAuth kdfOk (some store) now (some p) = (HRes.thrown, some store, [Effect.rlAccess])) := by
  constructor
  · by_cases hk : kdfOk p <;> simp [handleAuth, handleAuthBody, truthyS, hp, hk]
  · intro store hs
    simp [handleAuth, hs]

/-- Witness for C4: with no binding the correct password logs in directly;
with an unavailable binding the same request throws. -/
theorem C4_fail_open_witness :
    handleAuth (fun p => p = "hunter2") none 0 (some "hunter2")
        = (HRes.resp 200, none, [Effect.kdf]) ∧
    handleAuth (fun p => p = "hunter2") (some ⟨false, none⟩) 0 (some "hunter2")
        = (HRes.thrown, some ⟨false, none⟩, [Effect.rlAccess]) := by
  have h := C4_fail_open (fun p => p = "hunter2") 0 "hunter2" (by decide)
  constructor
  · rw [h.1]
    decide
  · exact h.2 ⟨false, none⟩ rfl

/-- Counterexample to claim C4 as stated: a POST to the auth route with the
correct password while the configured counter store is unavailable is
answered 500, and password verification never runs — counter-store
unavailability does block authentication. -/
theorem C4_fail_open_cex :
    (fetchRouter cfgToy ⟨[], GHDirResp.status404, some ⟨false, none⟩, 0⟩
        { emptyReq with
          path := "/auth", method := "POST",
          origin := some "https://example.org", password := some "hunter2" }).1 = 500 ∧
    Effect.kdf ∉ (fetchRouter cfgToy ⟨[], GHDirResp.status404, some ⟨false, none⟩, 0⟩
        { emptyReq with
          path := "/auth", method := "POST",
          origin := some "https://example.org", password := some "hunter2" }).2.2 := by decide

/-- Claim C6, confirmed.  At a stored count of `RLIMIT_MAX` or above the
attempt is denied 429 and the counter is not written; below the threshold
the attempt proceeds past the limiter (its outcome is the password check's,
never 429) and the counter is incremented by one; consequently a fresh
identity making six attempts within one window sees five password-check
outcomes and a sixth answer of 429. -/
theorem C6_threshold (kdfOk : String → Bool) (pwd : Option String) (store : RLStore)
    (now : Nat) (hav : store.available = true) :
    (∀ cnt, kvGet store.entry now = some cnt → RLIMIT_MAX ≤ cnt →
      handleAuth kdfOk (some store) now pwd = (HRes.resp 429, some store, [Effect.rlAccess])) ∧
    (∀ cnt, kvGet store.entry now = some cnt → cnt < RLIMIT_MAX →
      ¬ (handleAuth kdfOk (some store) now pwd).1 = HRes.resp 429 ∧
      (handleAuth kdfOk (some store) now pwd).2.1
        = some { store with entry := some ⟨cnt + 1, now + RLIMIT_WINDOW⟩ }) ∧
    (∀ t1 t2 t3 t4 t5 t6 : Nat, t2 < t1 + RLIMIT_WINDOW → t3 < t2 + RLIMIT_WINDOW →
      t4 < t3 + RLIMIT_WINDOW → t5 < t4 + RLIMIT_WINDOW → t6 < t5 + RLIMIT_WINDOW →
      (authAttempts kdfOk pwd (some ⟨true, none⟩) [t1, t2, t3, t4, t5, t6]).1
        = [(handleAuthBody kdfOk pwd).1, (handleAuthBody kdfOk pwd).1,
           (handleAuthBody kdfOk pwd).1, (handleAuthBody kdfOk pwd).1,
           (handleAuthBody kdfOk pwd).1, HRes.resp 429] ∧
      ¬ (handleAuthBody kdfOk pwd).1 = HRes.resp 429) := by
  refine ⟨?_, ?_, ?_⟩
  · intro cnt hget hge
    exact handleAuth_denied kdfOk pwd store now cnt hav hget hge
  · intro cnt hget hlt
    rw [handleAuth_allowed kdfOk pwd store now cnt hav hget hlt]
    exact ⟨handleAuthBody_ne_429 kdfOk pwd, rfl⟩
  · intro t1 t2 t3 t4 t5 t6 h12 h23 h34 h45 h56
    have s1 := handleAuth_fresh kdfOk pwd ⟨true, none⟩ t1 rfl rfl
    have s2 := handleAuth_allowed kdfOk pwd ⟨true, some ⟨1, t1 + RLIMIT_WINDOW⟩⟩ t2 1 rfl
      (by simp [kvGet, h12]) (by decide)
    have s3 := handleAuth_allowed kdfOk pwd ⟨true, some ⟨2, t2 + RLIMIT_WINDOW⟩⟩ t3 2 rfl
      (by simp [kvGet, h23]) (by decide)
    have s4 := handleAuth_allowed kdfOk pwd ⟨true, some ⟨3, t3 + RLIMIT_WINDOW⟩⟩ t4 3 rfl
      (by simp [kvGet, h34]) (by decide)
    have s5 := handleAuth_allowed kdfOk pwd ⟨true, some ⟨4, t4 + RLIMIT_WINDOW⟩⟩ t5 4 rfl
      (by simp [kvGet, h45]) (by decide)
    have s6 := handleAuth_denied kdfOk pwd ⟨true, some ⟨5, t5 + RLIMIT_WINDOW⟩⟩ t6 5 rfl
      (by simp [kvGet, h56]) (by decide)
    refine ⟨?_, handleAuthBody_ne_429 kdfOk pwd⟩
    simp [authAttempts, s1, s2, s3, s4, s5, s6]

/-- Witness for C6: six attempts with the wrong password at successive
seconds from a fresh identity: five 401 outcomes, then a 429. -/
theorem C6_threshold_witness :
    (authAttempts (fun p => p = "x") (some "wrong") (some ⟨true, none⟩) [0, 1, 2, 3, 4, 5]).1
      = [HRes.resp 401, HRes.resp 401, HRes.resp 401,
         HRes.resp 401, HRes.resp 401, HRes.resp 429] := by
  have h := (C6_threshold (fun p => p = "x") (some "wrong") ⟨true, none⟩ 0 rfl).2.2
    0 1 2 3 4 5 (by decide) (by decide) (by decide) (by decide) (by decide)
  rw [h.1]
  decide

/-- Claim C7, confirmed.  For an upload whose target already exists, and
for a gallery write with no sha supplied while the listing file exists, the
handler first issues a read for the file's current sha, supplies exactly
that sha with the write, and on success answers with the sha of the newly
written content. -/
theorem C7_write_reads_hash (st : GHStore) (newSha fn c : String) (f g : GHFile)
    (hfn : ¬ fn = "") (hc : ¬ c = "")
    (hex : ghLookup st (galleryPath fn) = some f) (hfs : ¬ f.sha = "")
    (hex2 : ghLookup st galleryYmlPath = some g) (hgs : ¬ g.sha = "") :
    uploadImage st newSha (some fn) (some c)
      = ⟨201, some newSha, ghSet st (galleryPath fn) ⟨newSha, c⟩,
         [.get (galleryPath fn), .put (galleryPath fn) (some f.sha)]⟩ ∧
    updateGallery st newSha (some c) none
      = ⟨200, some newSha, ghSet st galleryYmlPath ⟨newSha, c⟩,
         [.get galleryYmlPath, .put galleryYmlPath (some g.sha)]⟩ := by
  constructor
  · simp [uploadImage, truthyS, hfn, hc, hex, ghApiPut, hfs]
  · simp [updateGallery, truthyS, hex2, ghApiPut, hgs]

/-- Witness for C7: overwriting an existing image and the existing listing
file reads each current sha, writes with it, and returns the fresh sha. -/
theorem C7_write_reads_hash_witness :
    uploadImage [(galleryPath "a.jpg", ⟨"s1", "old"⟩), (galleryYmlPath, ⟨"s2", "oldyml"⟩)]
        "sNew" (some "a.jpg") (some "data")
      = ⟨201, some "sNew",
         ghSet [(galleryPath "a.jpg", ⟨"s1", "old"⟩), (galleryYmlPath, ⟨"s2", "oldyml"⟩)]
           (galleryPath "a.jpg") ⟨"sNew", "data"⟩,
         [.get (galleryPath "a.jpg"), .put (galleryPath "a.jpg") (some "s1")]⟩ ∧
    updateGallery [(galleryPath "a.jpg", ⟨"s1", "old"⟩), (galleryYmlPath, ⟨"s2", "oldyml"⟩)]
        "sNew" (some "data") none
      = ⟨200, some "sNew",
         ghSet [(galleryPath "a.jpg", ⟨"s1", "old"⟩), (galleryYmlPath, ⟨"s2", "oldyml"⟩)]
           galleryYmlPath ⟨"sNew", "data"⟩,
         [.get galleryYmlPath, .put galleryYmlPath (some "s2")]⟩ :=
  C7_write_reads_hash _ "sNew" "a.jpg" _ ⟨"s1", "old"⟩ ⟨"s2", "oldyml"⟩
    (by decide) (by decide) (by decide) (by decide) (by decide) (by decide)

/-- Claim C8, corrected.  With the allow-listed origin, a non-preflight
request whose path-method pair matches none of the six routes is answered
404 provided it carries a token that verifies; without a verifying token
the JWT gate answers 401 first, so unknown routes are 404 only for
authenticated callers. -/
theorem C8_unknown_route (cfg : Cfg) (w : World) (req : Request) (p : JWTPayloadJS)
    (hm : ¬ req.method = "OPTIONS")
    (ho : req.origin = some cfg.allowedOrigin) (hne : ¬ cfg.allowedOrigin = "")
    (hv : verifyJWT cfg.mac cfg.decP cfg.secret req.authHeader w.now = .ok (some p))
    (hroute : ¬ ((req.path = "/auth" ∧ req.method = "POST")
      ∨ (req.path = "/images" ∧ req.method = "GET")
      ∨ (req.path = "/upload" ∧ req.method = "POST")
      ∨ (req.path = "/delete-image" ∧ req.method = "POST")
      ∨ (req.path = "/gallery" ∧ req.method = "GET")
      ∨ (req.path = "/gallery" ∧ req.method = "PUT"))) :
    fetchRouter cfg w req = (404, w, [Effect.tokenCheck]) := by
  rw [not_or, not_or, not_or, not_or, not_or] at hroute
  obtain ⟨h1, h2, h3, h4, h5, h6⟩ := hroute
  simp [fetchRouter, hm, ho, hne, hv, h1, h2, h3, h4, h5, h6]

/-- Witness for C8: a GET to an unknown path with a valid token is a
404. -/
theorem C8_unknown_route_witness :
    fetchRouter cfgToy ⟨[], GHDirResp.status404, none, 0⟩
        { emptyReq with
          path := "/nope", method := "GET", origin := some "https://example.org",
          authHeader := some (bearerOf (signJWT macToy encPToy secretToy payloadA)) }
      = (404, ⟨[], GHDirResp.status404, none, 0⟩, [Effect.tokenCheck]) :=
  C8_unknown_route cfgToy _ _ payloadA (by decide) rfl (by decide) (by decide) (by decide)

/-- Counterexample to claim C8 as stated: a GET to an unknown path from the
allow-listed origin without any token is answered 401, not 404. -/
theorem C8_unknown_route_cex :
    (fetchRouter cfgToy ⟨[], GHDirResp.status404, none, 0⟩
        { emptyReq with
          path := "/nope", method := "GET", origin := some "https://example.org" }).1 = 401 ∧
    ¬ (fetchRouter cfgToy ⟨[], GHDirResp.status404, none, 0⟩
        { emptyReq with
          path := "/nope", method := "GET", origin := some "https://example.org" }).1 = 404 := by
  decide

end EtzrodtWorker
